import Mathlib

set_option maxHeartbeats 1000000
set_option maxRecDepth 1024

/-!
Verification of the sequence-space range map of `pkg/sfu/utils/rangemap.go`.

The Go structure `RangeMap[RT, VT]` keeps an ordered list of ranges over a
wrapping unsigned key space of bit width `w` (32 or 64 in the source, via the
generic parameter `RT`), each range carrying a cumulative value in a wrapping
unsigned value space of bit width `wv` (generic parameter `VT`).  Keys and
values are embedded as `Nat` reduced modulo `2^w` respectively `2^wv`; the
wrapping unsigned subtraction of the source is `submod`.
-/

/-- Errors of the range map (source: `errReversedOrder`, `errKeyNotFound`,
`errKeyTooOld`, `errKeyExcluded`). -/
inductive RangeErr where
  | reversedOrder
  | keyNotFound
  | keyTooOld
  | keyExcluded
deriving DecidableEq, Repr

/-- One record of the range map (source type `rangeVal[RT, VT]`): a closed
interval `[start, end]` of keys mapped to `value`; the last record of the
list is the open range, whose `end` field is unused.  The Go field `end` is
called `end_` here because `end` is a Lean keyword. -/
structure RangeVal where
  start : Nat
  end_ : Nat
  value : Nat
deriving DecidableEq, Repr

/-- The range map (source type `RangeMap[RT, VT]`). `w` and `wv` are the bit
widths of the key type `RT` and the value type `VT`; `size` is the retained
capacity; `ranges` is the ordered list of records, open range last. -/
structure RangeMap where
  w : Nat
  wv : Nat
  size : Nat
  ranges : List RangeVal
deriving DecidableEq, Repr

/-- `halfRange = 1 << (W - 1)` where `W` is the bit width of `RT`
(source: field `halfRange`, set in `NewRangeMap`). -/
def RangeMap.halfRange (r : RangeMap) : Nat := 2 ^ (r.w - 1)

/-- Wrapping unsigned subtraction `a - b` in `w`-bit arithmetic:
`(a - b) mod 2^w`. -/
def submod (w a b : Nat) : Nat := (a % 2 ^ w + (2 ^ w - b % 2 ^ w)) % 2 ^ w

/-- Source: `initRanges` — reset `ranges` to the single open range
`{start: 0, end: 0, value: val}`. -/
def initRanges (r : RangeMap) (val : Nat) : RangeMap :=
  { r with ranges := [⟨0, 0, val % 2 ^ r.wv⟩] }

/-- Source: `NewRangeMap` — `size` is clamped below by `minRanges = 1`
via `math.Max`; the map starts with a single open range of value 0. -/
def NewRangeMap (w wv : Nat) (size : Int) : RangeMap :=
  initRanges { w := w, wv := wv, size := (max size 1).toNat, ranges := [] } 0

/-- Source: `ClearAndResetValue`. -/
def ClearAndResetValue (r : RangeMap) (val : Nat) : RangeMap :=
  initRanges r val

/-- Source: `DecValue` — subtract `dec` from the last range's value, with
wrapping `VT` arithmetic.  The Go code indexes `ranges[len(ranges)-1]`
unconditionally; the empty case cannot arise on reachable maps (claim C10)
and is modelled as leaving the map unchanged. -/
def DecValue (r : RangeMap) (dec : Nat) : RangeMap :=
  match r.ranges.getLast? with
  | none => r
  | some lr =>
      { r with ranges :=
          r.ranges.dropLast ++ [{ lr with value := submod r.wv lr.value dec }] }

/-- Source: `prune` — if more than `size + 1` records are held, drop the
oldest ones so that exactly `size + 1` remain (`+1` for the open range). -/
def prune (r : RangeMap) : RangeMap :=
  if r.ranges.length > r.size + 1 then
    { r with ranges := r.ranges.drop (r.ranges.length - r.size - 1) }
  else r

/-- Source: `ExcludeRange`.  Inputs are reduced modulo `2^w` on entry (they
are values of `RT` in Go).  The checks and mutations follow the source line
by line; the Go code indexes `ranges[len(ranges)-1]` unconditionally, the
empty case cannot arise on reachable maps (claim C10) and is modelled by the
otherwise unused error `keyNotFound`. -/
def ExcludeRange (r : RangeMap) (startInclusive endExclusive : Nat) :
    Except RangeErr RangeMap :=
  let s := startInclusive % 2 ^ r.w
  let e := endExclusive % 2 ^ r.w
  if e = s ∨ submod r.w e s > r.halfRange then
    .error .reversedOrder
  else
    match r.ranges.getLast? with
    | none => .error .keyNotFound
    | some lr =>
      if lr.start > s then
        -- start of open range is after start of exclusion range
        .error .reversedOrder
      else
        let newValue := (lr.value + submod r.w e s) % 2 ^ r.wv
        if lr.start = s then
          -- merge case: move the open range
          .ok { r with ranges :=
                  r.ranges.dropLast ++ [{ lr with start := e, value := newValue }] }
        else
          -- split case: close the open range at s - 1, open a new one at e
          .ok (prune { r with ranges :=
                  r.ranges.dropLast ++
                    [{ lr with end_ := submod r.w s 1 }, ⟨e, 0, newValue⟩] })

/-- The body of one iteration of `GetValue`'s scan loop at index `idx`
(source: the `for idx := numRanges - 1; idx >= 0; idx--` loop):
`some res` means the iteration returns `res`, `none` means it continues. -/
def gvStep (r : RangeMap) (key : Nat) (idx : Nat) : Option (Except RangeErr Nat) :=
  let n := r.ranges.length
  let rv := r.ranges.getD idx ⟨0, 0, 0⟩
  if idx ≠ n - 1 ∧ submod r.w key rv.start < r.halfRange ∧
      submod r.w rv.end_ key < r.halfRange then
    some (.ok rv.value)
  else
    if 0 < idx ∧
        (let rvPrev := r.ranges.getD (idx - 1) ⟨0, 0, 0⟩
         let beforeDiff := submod r.w key rvPrev.end_
         let afterDiff := submod r.w rv.start key
         0 < beforeDiff ∧ beforeDiff < r.halfRange ∧
           0 < afterDiff ∧ afterDiff < r.halfRange) then
      some (.error .keyExcluded)
    else
      none

/-- `GetValue`'s scan loop, running `gvStep` at indices `idx, idx - 1, …, 0`
and returning `keyNotFound` when it falls through. -/
def gvLoop (r : RangeMap) (key : Nat) : Nat → Except RangeErr Nat
  | 0 =>
    match gvStep r key 0 with
    | some res => res
    | none => .error .keyNotFound
  | idx + 1 =>
    match gvStep r key (idx + 1) with
    | some res => res
    | none => gvLoop r key idx

/-- Source: `GetValue`.  The key is reduced modulo `2^w` on entry (it is a
value of `RT` in Go).  The two fast-path checks use Go's raw unsigned
comparisons `>=` and `<`, exactly as the source does. -/
def GetValue (r : RangeMap) (keyIn : Nat) : Except RangeErr Nat :=
  let key := keyIn % 2 ^ r.w
  let n := r.ranges.length
  if n ≠ 0 then
    if key ≥ (r.ranges.getD (n - 1) ⟨0, 0, 0⟩).start then
      -- in the open range
      .ok (r.ranges.getD (n - 1) ⟨0, 0, 0⟩).value
    else if key < (r.ranges.getD 0 ⟨0, 0, 0⟩).start then
      -- too old
      .error .keyTooOld
    else
      gvLoop r key (n - 1)
  else
    .error .keyNotFound

/-- The mutating operations of the map, for reasoning about operation
sequences: `ClearAndResetValue`, `DecValue` and `ExcludeRange`. -/
inductive Op where
  | reset (v : Nat)
  | dec (d : Nat)
  | exclude (s e : Nat)
deriving DecidableEq, Repr

/-- Apply one operation; a failing `ExcludeRange` leaves the map unchanged
(the Go method only returns an error, mutating nothing in that case). -/
def applyOp (r : RangeMap) : Op → RangeMap
  | .reset v => ClearAndResetValue r v
  | .dec d => DecValue r d
  | .exclude s e =>
    match ExcludeRange r s e with
    | .ok r2 => r2
    | .error _ => r

/-- Run a sequence of operations. -/
def runOps (r : RangeMap) (ops : List Op) : RangeMap :=
  ops.foldl applyOp r

/-- Run a sequence of `ExcludeRange` calls from `r`, also accumulating (into
`sum`) the widths `(endExclusive - startInclusive) mod 2^w` of the calls that
succeed; failing calls leave both the map and the sum unchanged. -/
def runExclsSum (r : RangeMap) (sum : Nat) : List (Nat × Nat) → RangeMap × Nat
  | [] => (r, sum)
  | c :: rest =>
    match ExcludeRange r c.1 c.2 with
    | .ok r2 => runExclsSum r2 (sum + submod r.w c.2 c.1) rest
    | .error _ => runExclsSum r sum rest

/-- The map of claim C1's wraparound scenario: fresh 32-bit map, then
`ExcludeRange(2^32 - 5, 2^32 - 2)`. -/
def c1_state : RangeMap :=
  applyOp (NewRangeMap 32 32 10) (.exclude (2 ^ 32 - 5) (2 ^ 32 - 2))

/-- A map whose open range starts at 10, for exercising claim C3's
rejection of exclusions that precede the open range. -/
def c3_state : RangeMap := runOps (NewRangeMap 32 32 4) [.exclude 0 10]

/-- The map of claim C6's scenario: capacity 1, three split-causing
exclusions. -/
def c6_state : RangeMap :=
  runOps (NewRangeMap 32 32 1) [.exclude 10 20, .exclude 30 40, .exclude 50 60]

/-- The map of claim C9's scenario: a wrap-crossing exclusion on a fresh
32-bit-key map. -/
def c9_state : RangeMap :=
  runOps (NewRangeMap 32 64 8) [.exclude (2 ^ 32 - 5) (2 ^ 32 - 2)]

/-- Raw ordering between consecutive records used in the inductive
invariant: strictly increasing starts, non-decreasing values. -/
def goodPair (a b : RangeVal) : Prop := a.start < b.start ∧ a.value ≤ b.value

/-- Circular ordering between consecutive records, as claim C4 states it:
the circular distance from `a.start` to `b.start` is strictly positive and
less than `halfRange`, and values are non-decreasing. -/
def circPair (r : RangeMap) (a b : RangeVal) : Prop :=
  0 < submod r.w b.start a.start ∧ submod r.w b.start a.start < r.halfRange ∧
    a.value ≤ b.value

/-- The invariant of claim C4: `ranges` is sorted by circular start order
with non-decreasing values, and every closed range satisfies
`start ≤ end` circularly with width at most `halfRange - 1`. -/
def SortedInv (r : RangeMap) : Prop :=
  r.ranges.Chain' (circPair r) ∧
  ∀ rv ∈ r.ranges.dropLast, submod r.w rv.end_ rv.start < r.halfRange

/-- Strengthened inductive invariant: all starts below `halfRange`, closed
ranges raw-ordered and bounded, starts raw-increasing with non-decreasing
values. -/
def StrongInv (r : RangeMap) : Prop :=
  r.ranges ≠ [] ∧
  (∀ rv ∈ r.ranges, rv.start < r.halfRange) ∧
  (∀ rv ∈ r.ranges.dropLast, rv.start ≤ rv.end_ ∧ rv.end_ < r.halfRange) ∧
  r.ranges.Chain' goodPair

/-- Caller discipline for one operation, used by the amended claim C4:
no `DecValue`, and each exclusion is wrap-free (`s < e < halfRange` after
reduction) and does not overflow the value type. -/
def disciplined (r : RangeMap) : Op → Prop
  | .reset _ => True
  | .dec _ => False
  | .exclude s e =>
      s % 2 ^ r.w < e % 2 ^ r.w ∧ e % 2 ^ r.w < r.halfRange ∧
      (r.ranges.getLastD ⟨0, 0, 0⟩).value + (e % 2 ^ r.w - s % 2 ^ r.w) < 2 ^ r.wv

/-- A whole operation sequence is disciplined when each operation is
disciplined in the state it is applied to. -/
def DisciplinedRun (r : RangeMap) : List Op → Prop
  | [] => True
  | op :: rest => disciplined r op ∧ DisciplinedRun (applyOp r op) rest

instance (r : RangeMap) (op : Op) : Decidable (disciplined r op) :=
  match op with
  | .reset _ => inferInstanceAs (Decidable True)
  | .dec _ => inferInstanceAs (Decidable False)
  | .exclude _ _ => inferInstanceAs (Decidable (_ ∧ _ ∧ _))

instance instDisciplinedRunDec :
    (ops : List Op) → (r : RangeMap) → Decidable (DisciplinedRun r ops)
  | [], _ => .isTrue trivial
  | op :: rest, r =>
    have : Decidable (DisciplinedRun (applyOp r op) rest) :=
      instDisciplinedRunDec rest (applyOp r op)
    inferInstanceAs (Decidable (_ ∧ _))

instance (r : RangeMap) : DecidableRel (circPair r) := fun _ _ =>
  inferInstanceAs (Decidable (_ ∧ _ ∧ _))

instance (a b : RangeVal) : Decidable (goodPair a b) :=
  inferInstanceAs (Decidable (_ ∧ _))

instance instDecidableSortedInv (r : RangeMap) : Decidable (SortedInv r) :=
  inferInstanceAs (Decidable (_ ∧ _))

instance instDecidableStrongInv (r : RangeMap) : Decidable (StrongInv r) :=
  inferInstanceAs (Decidable (_ ∧ _ ∧ _ ∧ _))

/-! ### Basic lemmas about `submod`, `prune` and list bookkeeping -/

lemma submod_lt (w a b : Nat) : submod w a b < 2 ^ w :=
  Nat.mod_lt _ (Nat.two_pow_pos w)

lemma submod_mod (w a b : Nat) :
    submod w (a % 2 ^ w) (b % 2 ^ w) = submod w a b := by
  unfold submod
  rw [Nat.mod_mod_of_dvd a dvd_rfl, Nat.mod_mod_of_dvd b dvd_rfl]

lemma submod_eq_sub {w a b : Nat} (hb : b ≤ a) (ha : a < 2 ^ w) :
    submod w a b = a - b := by
  unfold submod
  rw [Nat.mod_eq_of_lt ha, Nat.mod_eq_of_lt (lt_of_le_of_lt hb ha)]
  have h : a + (2 ^ w - b) = (a - b) + 2 ^ w := by omega
  rw [h, Nat.add_mod_right, Nat.mod_eq_of_lt (by omega)]

lemma drop_ne_nil {α : Type} (l : List α) (k : Nat) (hk : k < l.length) :
    l.drop k ≠ [] := by
  intro h
  have hlen := List.length_drop k l
  rw [h] at hlen
  simp at hlen
  omega

lemma getLast?_drop {α : Type} (l : List α) (k : Nat) (hk : k < l.length) :
    (l.drop k).getLast? = l.getLast? := by
  conv_rhs => rw [← List.take_append_drop k l]
  rw [List.getLast?_append]
  cases hd : (l.drop k).getLast? with
  | none => exact absurd (List.getLast?_eq_none_iff.mp hd) (drop_ne_nil l k hk)
  | some a => simp

lemma chain'_drop {α : Type} {R : α → α → Prop} {l : List α} (k : Nat)
    (h : List.Chain' R l) : List.Chain' R (l.drop k) := by
  induction k with
  | zero => simpa using h
  | succ n ih =>
    rw [← List.tail_drop]
    exact ih.tail

lemma mem_dropLast_drop {α : Type} {l : List α} {k : Nat} {x : α}
    (hx : x ∈ (l.drop k).dropLast) : x ∈ l.dropLast := by
  rw [List.dropLast_eq_take, List.length_drop] at hx
  rw [List.dropLast_eq_take]
  have h : List.take (l.length - k - 1) (l.drop k)
      = List.drop k (List.take (l.length - 1) l) := by
    rw [List.drop_take]
    congr 1
    omega
  rw [h] at hx
  exact List.drop_subset _ _ hx

lemma chain'_imp_mem {α : Type} {P Q : α → α → Prop} :
    ∀ {l : List α}, l.Chain' P → (∀ a b, a ∈ l → b ∈ l → P a b → Q a b) →
      l.Chain' Q
  | [], _, _ => List.chain'_nil
  | [_], _, _ => List.chain'_singleton _
  | a :: b :: l, h, himp => by
    rw [List.chain'_cons] at h ⊢
    refine ⟨himp a b (by simp) (by simp) h.1, ?_⟩
    exact chain'_imp_mem h.2 fun x y hx hy hxy =>
      himp x y (by simp [hx]) (by simp [hy]) hxy

lemma getLastD_concat {α : Type} (l : List α) (a d : α) :
    (l ++ [a]).getLastD d = a := by
  rw [List.getLastD_eq_getLast?, List.getLast?_concat]
  rfl

lemma prune_fields (r : RangeMap) :
    (prune r).w = r.w ∧ (prune r).wv = r.wv ∧ (prune r).size = r.size := by
  unfold prune
  split <;> simp

lemma prune_length (r : RangeMap) :
    (prune r).ranges.length ≤ r.size + 1 := by
  unfold prune
  split
  next h => simp only [List.length_drop]; omega
  next h => simpa using Nat.le_of_not_lt h

lemma prune_eq_self (r : RangeMap) (h : r.ranges.length ≤ r.size + 1) :
    prune r = r := by
  unfold prune
  rw [if_neg (by omega)]

lemma prune_getLast? (r : RangeMap) (h : r.ranges ≠ []) :
    (prune r).ranges.getLast? = r.ranges.getLast? ∧ (prune r).ranges ≠ [] := by
  unfold prune
  split
  next hlen =>
    have hk : r.ranges.length - r.size - 1 < r.ranges.length := by omega
    exact ⟨getLast?_drop _ _ hk, drop_ne_nil _ _ hk⟩
  next hlen => exact ⟨rfl, h⟩

/-- Complete case analysis of `ExcludeRange` on a non-empty map: it either
fails with `reversedOrder` (iff one of the three rejection conditions holds),
or takes the merge case, or takes the split case. -/
lemma ExcludeRange_cases (r : RangeMap) (s e : Nat) (hne : r.ranges ≠ []) :
    (ExcludeRange r s e = .error .reversedOrder ∧
       (e % 2 ^ r.w = s % 2 ^ r.w ∨ r.halfRange < submod r.w e s ∨
         s % 2 ^ r.w < (r.ranges.getLastD ⟨0, 0, 0⟩).start)) ∨
    (e % 2 ^ r.w ≠ s % 2 ^ r.w ∧ submod r.w e s ≤ r.halfRange ∧
       (r.ranges.getLastD ⟨0, 0, 0⟩).start = s % 2 ^ r.w ∧
       ExcludeRange r s e = .ok { r with ranges := r.ranges.dropLast ++
         [{ r.ranges.getLastD ⟨0, 0, 0⟩ with
              start := e % 2 ^ r.w,
              value := ((r.ranges.getLastD ⟨0, 0, 0⟩).value + submod r.w e s)
                % 2 ^ r.wv }] }) ∨
    (e % 2 ^ r.w ≠ s % 2 ^ r.w ∧ submod r.w e s ≤ r.halfRange ∧
       (r.ranges.getLastD ⟨0, 0, 0⟩).start < s % 2 ^ r.w ∧
       ExcludeRange r s e = .ok (prune { r with ranges := r.ranges.dropLast ++
         [{ r.ranges.getLastD ⟨0, 0, 0⟩ with end_ := submod r.w (s % 2 ^ r.w) 1 },
          ⟨e % 2 ^ r.w, 0, ((r.ranges.getLastD ⟨0, 0, 0⟩).value + submod r.w e s)
            % 2 ^ r.wv⟩] })) := by
  obtain ⟨lr, hlr⟩ : ∃ lr, r.ranges.getLast? = some lr := by
    cases h : r.ranges.getLast? with
    | none => exact absurd (List.getLast?_eq_none_iff.mp h) hne
    | some lr => exact ⟨lr, rfl⟩
  have hD : r.ranges.getLastD ⟨0, 0, 0⟩ = lr := by
    rw [List.getLastD_eq_getLast?, hlr]
    rfl
  rw [hD]
  unfold ExcludeRange
  simp only [hlr, submod_mod]
  by_cases h1 : e % 2 ^ r.w = s % 2 ^ r.w ∨ submod r.w e s > r.halfRange
  · rw [if_pos h1]
    exact Or.inl ⟨rfl, h1.imp id Or.inl⟩
  · rw [if_neg h1]
    push_neg at h1
    by_cases h2 : lr.start > s % 2 ^ r.w
    · rw [if_pos h2]
      exact Or.inl ⟨rfl, Or.inr (Or.inr h2)⟩
    · rw [if_neg h2]
      by_cases h3 : lr.start = s % 2 ^ r.w
      · rw [if_pos h3]
        exact Or.inr (Or.inl ⟨h1.1, h1.2, h3, rfl⟩)
      · rw [if_neg h3]
        exact Or.inr (Or.inr ⟨h1.1, h1.2,
          lt_of_le_of_ne (not_lt.mp h2) h3, rfl⟩)

lemma ExcludeRange_ok_ne_nil {r r2 : RangeMap} {s e : Nat}
    (h : ExcludeRange r s e = .ok r2) : r.ranges ≠ [] := by
  intro hnil
  unfold ExcludeRange at h
  simp only [hnil, List.getLast?_nil] at h
  split at h <;> simp_all

lemma ExcludeRange_ok_shape {r r2 : RangeMap} {s e : Nat}
    (h : ExcludeRange r s e = .ok r2) :
    r2.w = r.w ∧ r2.wv = r.wv ∧ r2.size = r.size ∧ r2.ranges ≠ [] ∧
      (r2.ranges.getLastD ⟨0, 0, 0⟩).value
        = ((r.ranges.getLastD ⟨0, 0, 0⟩).value + submod r.w e s) % 2 ^ r.wv := by
  have hne := ExcludeRange_ok_ne_nil h
  rcases ExcludeRange_cases r s e hne with herr | hmerge | hsplit
  · rw [herr.1] at h
    exact absurd h (by simp)
  · rw [hmerge.2.2.2] at h
    obtain rfl : r2 = _ := (Except.ok.inj h).symm
    refine ⟨rfl, rfl, rfl, by simp, ?_⟩
    rw [getLastD_concat]
  · rw [hsplit.2.2.2] at h
    obtain rfl : r2 = _ := (Except.ok.inj h).symm
    set r3 : RangeMap := { r with ranges := r.ranges.dropLast ++
      [{ r.ranges.getLastD ⟨0, 0, 0⟩ with end_ := submod r.w (s % 2 ^ r.w) 1 },
       ⟨e % 2 ^ r.w, 0, ((r.ranges.getLastD ⟨0, 0, 0⟩).value + submod r.w e s)
         % 2 ^ r.wv⟩] } with hr3
    have hne3 : r3.ranges ≠ [] := by simp [hr3]
    have hpl := prune_getLast? r3 hne3
    have hpf := prune_fields r3
    refine ⟨hpf.1, hpf.2.1, hpf.2.2, hpl.2, ?_⟩
    rw [List.getLastD_eq_getLast?, hpl.1]
    have hassoc : r3.ranges = (r.ranges.dropLast ++
        [{ r.ranges.getLastD ⟨0, 0, 0⟩ with end_ := submod r.w (s % 2 ^ r.w) 1 }]) ++
        [⟨e % 2 ^ r.w, 0, ((r.ranges.getLastD ⟨0, 0, 0⟩).value + submod r.w e s)
          % 2 ^ r.wv⟩] := by
      simp [hr3]
    rw [hassoc, List.getLast?_concat]
    rfl

lemma applyOp_fields (r : RangeMap) (op : Op) :
    (applyOp r op).w = r.w ∧ (applyOp r op).wv = r.wv ∧
      (applyOp r op).size = r.size := by
  cases op with
  | reset v => exact ⟨rfl, rfl, rfl⟩
  | dec d =>
    simp only [applyOp, DecValue]
    split <;> exact ⟨rfl, rfl, rfl⟩
  | exclude s e =>
    simp only [applyOp]
    split
    next r2 hok => exact ⟨(ExcludeRange_ok_shape hok).1,
      (ExcludeRange_ok_shape hok).2.1, (ExcludeRange_ok_shape hok).2.2.1⟩
    next => exact ⟨rfl, rfl, rfl⟩

lemma runOps_nil (r : RangeMap) : runOps r [] = r := rfl

lemma runOps_cons (r : RangeMap) (op : Op) (ops : List Op) :
    runOps r (op :: ops) = runOps (applyOp r op) ops := rfl

lemma applyOp_exclude_ok {r r2 : RangeMap} {s e : Nat}
    (h : ExcludeRange r s e = .ok r2) : applyOp r (.exclude s e) = r2 := by
  simp only [applyOp, h]

lemma applyOp_exclude_error {r : RangeMap} {s e : Nat} {err : RangeErr}
    (h : ExcludeRange r s e = .error err) : applyOp r (.exclude s e) = r := by
  simp only [applyOp, h]

lemma applyOp_ne_nil {r : RangeMap} (op : Op) (h : r.ranges ≠ []) :
    (applyOp r op).ranges ≠ [] := by
  cases op with
  | reset v => simp [applyOp, ClearAndResetValue, initRanges]
  | dec d =>
    simp only [applyOp, DecValue]
    split
    next => exact h
    next => simp
  | exclude s e =>
    simp only [applyOp]
    split
    next r2 hok => exact (ExcludeRange_ok_shape hok).2.2.2.1
    next => exact h

lemma applyOp_length {r : RangeMap} (op : Op)
    (h : r.ranges.length ≤ r.size + 1) :
    (applyOp r op).ranges.length ≤ r.size + 1 := by
  cases op with
  | reset v => simp [applyOp, ClearAndResetValue, initRanges]
  | dec d =>
    simp only [applyOp, DecValue]
    split
    next => exact h
    next lr hlr =>
      have hne : r.ranges ≠ [] := by
        intro hnil
        rw [hnil] at hlr
        simp at hlr
      have hpos : 0 < r.ranges.length := List.length_pos.mpr hne
      simp only [List.length_append, List.length_dropLast, List.length_cons,
        List.length_nil]
      omega
  | exclude s e =>
    simp only [applyOp]
    split
    next r2 hok =>
      have hne := ExcludeRange_ok_ne_nil hok
      have hpos : 0 < r.ranges.length := List.length_pos.mpr hne
      rcases ExcludeRange_cases r s e hne with herr | hmerge | hsplit
      · rw [herr.1] at hok
        exact absurd hok (by simp)
      · rw [hmerge.2.2.2] at hok
        obtain rfl : r2 = _ := (Except.ok.inj hok).symm
        simp only [List.length_append, List.length_dropLast, List.length_cons,
          List.length_nil]
        omega
      · rw [hsplit.2.2.2] at hok
        obtain rfl : r2 = _ := (Except.ok.inj hok).symm
        exact prune_length _
    next => exact h

lemma runOps_fields (r : RangeMap) (ops : List Op) :
    (runOps r ops).w = r.w ∧ (runOps r ops).wv = r.wv ∧
      (runOps r ops).size = r.size := by
  induction ops generalizing r with
  | nil => exact ⟨rfl, rfl, rfl⟩
  | cons op rest ih =>
    have h1 := applyOp_fields r op
    have h2 := ih (applyOp r op)
    exact ⟨h2.1.trans h1.1, h2.2.1.trans h1.2.1, h2.2.2.trans h1.2.2⟩

lemma runOps_ne_nil {r : RangeMap} (ops : List Op) (h : r.ranges ≠ []) :
    (runOps r ops).ranges ≠ [] := by
  induction ops generalizing r with
  | nil => exact h
  | cons op rest ih => exact ih (applyOp_ne_nil op h)

lemma runOps_length {r : RangeMap} (ops : List Op)
    (h : r.ranges.length ≤ r.size + 1) :
    (runOps r ops).ranges.length ≤ (runOps r ops).size + 1 := by
  induction ops generalizing r with
  | nil => exact h
  | cons op rest ih =>
    have h2 := applyOp_length op h
    rw [← (applyOp_fields r op).2.2] at h2
    exact ih h2

/-- C5: for every capacity and every operation sequence, the map holds at
most `capacity + 1` records, where the capacity is the construction argument
clamped up to 1. -/
theorem C5_length_bound (w wv : Nat) (size : Int) (ops : List Op) :
    (runOps (NewRangeMap w wv size) ops).ranges.length
      ≤ (max size 1).toNat + 1 := by
  have h0 : (NewRangeMap w wv size).ranges.length
      ≤ (NewRangeMap w wv size).size + 1 := by
    simp [NewRangeMap, initRanges]
  have h := runOps_length ops h0
  rwa [(runOps_fields _ _).2.2] at h

/-- C10: the ranges list is never empty after construction, every operation
preserves non-emptiness (so the unchecked accesses to the last element in
`DecValue` and `ExcludeRange` are in bounds), and pruning keeps the open
(last) range. -/
theorem C10_ranges_never_empty :
    (∀ (w wv : Nat) (size : Int) (ops : List Op),
        (runOps (NewRangeMap w wv size) ops).ranges ≠ []) ∧
    (∀ (r : RangeMap) (op : Op), r.ranges ≠ [] → (applyOp r op).ranges ≠ []) ∧
    (∀ r : RangeMap, r.ranges ≠ [] →
        (prune r).ranges ≠ [] ∧
          (prune r).ranges.getLast? = r.ranges.getLast?) :=
  ⟨fun w wv size ops => runOps_ne_nil ops (by simp [NewRangeMap, initRanges]),
   fun _ op h => applyOp_ne_nil op h,
   fun r h => ⟨(prune_getLast? r h).2, (prune_getLast? r h).1⟩⟩

theorem C10_witness :
    (NewRangeMap 32 32 1).ranges ≠ [] ∧
      (applyOp (NewRangeMap 32 32 1) (.dec 3)).ranges ≠ [] :=
  ⟨by decide, C10_ranges_never_empty.2.1 (NewRangeMap 32 32 1) (.dec 3) (by decide)⟩

/-- C7: after `ClearAndResetValue v` on any map, exactly one range exists —
the open range with start 0 and value `v` — and every key maps to `v`. -/
theorem C7_reset (r : RangeMap) (v key : Nat) (hv : v < 2 ^ r.wv) :
    (ClearAndResetValue r v).ranges = [⟨0, 0, v⟩] ∧
    GetValue (ClearAndResetValue r v) key = .ok v := by
  have hmod : v % 2 ^ r.wv = v := Nat.mod_eq_of_lt hv
  refine ⟨by simp [ClearAndResetValue, initRanges, hmod], ?_⟩
  simp [ClearAndResetValue, initRanges, GetValue, hmod]

theorem C7_witness :
    7 < 2 ^ (NewRangeMap 32 32 1).wv ∧
      GetValue (ClearAndResetValue (NewRangeMap 32 32 1) 7) 12345 = .ok 7 :=
  ⟨by decide, (C7_reset (NewRangeMap 32 32 1) 7 12345 (by decide)).2⟩

/-- C9 counterexample: the defensive `keyNotFound` fallback of `GetValue` is
reachable — after a single wrap-crossing exclusion on a fresh map, the key 0
(circularly inside the open range) hits it. -/
theorem C9_counterexample : GetValue c9_state 0 = .error .keyNotFound := rfl

/-- C9 amended: `GetValue` can return `keyNotFound` on a reachable map: the
defensive fallback branch is not dead code. -/
theorem C9_keyNotFound_reachable :
    ∃ (ops : List Op) (key : Nat),
      GetValue (runOps (NewRangeMap 32 64 8) ops) key = .error .keyNotFound := by
  refine ⟨[.exclude (2 ^ 32 - 5) (2 ^ 32 - 2)], 0, ?_⟩
  rfl

lemma runExclsSum_inv (calls : List (Nat × Nat)) :
    ∀ (r : RangeMap) (sum : Nat), r.ranges ≠ [] →
      (r.ranges.getLastD ⟨0, 0, 0⟩).value = sum % 2 ^ r.wv →
      (runExclsSum r sum calls).1.wv = r.wv ∧
      (runExclsSum r sum calls).1.ranges ≠ [] ∧
      ((runExclsSum r sum calls).1.ranges.getLastD ⟨0, 0, 0⟩).value
        = (runExclsSum r sum calls).2 % 2 ^ r.wv := by
  induction calls with
  | nil => exact fun r sum hne hval => ⟨rfl, hne, hval⟩
  | cons c rest ih =>
    intro r sum hne hval
    cases hex : ExcludeRange r c.1 c.2 with
    | error err =>
      simp only [runExclsSum, hex]
      exact ih r sum hne hval
    | ok r2 =>
      simp only [runExclsSum, hex]
      have hs := ExcludeRange_ok_shape hex
      have hval2 : (r2.ranges.getLastD ⟨0, 0, 0⟩).value
          = (sum + submod r.w c.2 c.1) % 2 ^ r2.wv := by
        rw [hs.2.2.2.2, hval, hs.2.1, Nat.mod_add_mod]
      have h := ih r2 (sum + submod r.w c.2 c.1) hs.2.2.2.1 hval2
      rw [hs.2.1] at h
      exact h

/-- C8: starting from a fresh map, after any sequence of `ExcludeRange`
calls the open (last) range's value equals the sum of the widths
`(endExclusive - startInclusive) mod 2^w` of the successful exclusions,
reduced in the value type's modular arithmetic. -/
theorem C8_cumulative_width (w wv : Nat) (size : Int)
    (calls : List (Nat × Nat)) :
    ((runExclsSum (NewRangeMap w wv size) 0 calls).1.ranges.getLastD
        ⟨0, 0, 0⟩).value
      = (runExclsSum (NewRangeMap w wv size) 0 calls).2 % 2 ^ wv := by
  have h := runExclsSum_inv calls (NewRangeMap w wv size) 0
    (by simp [NewRangeMap, initRanges]) (by simp [NewRangeMap, initRanges])
  exact h.2.2

lemma gvLoop_some {r : RangeMap} {key idx : Nat} {res : Except RangeErr Nat}
    (h : gvStep r key idx = some res) : gvLoop r key idx = res := by
  cases idx with
  | zero =>
    unfold gvLoop
    rw [h]
  | succ n =>
    unfold gvLoop
    rw [h]

set_option linter.unusedVariables false in
lemma gvLoop_none {r : RangeMap} {key idx : Nat}
    (h : gvStep r key idx = none) (hpos : idx ≠ 0) :
    gvLoop r key idx = gvLoop r key (idx - 1) := by
  cases idx with
  | zero => exact absurd rfl hpos
  | succ n =>
    show (match gvStep r key (n + 1) with
          | some res => res
          | none => gvLoop r key n) = gvLoop r key (n + 1 - 1)
    rw [h]
    rfl

/-- C1 counterexample: after `ExcludeRange(2^32 - 5, 2^32 - 2)` on a fresh
32-bit map, the key 1 lies just above the wrap point at circular distance
3 < `halfRange` from the open range's start, yet `GetValue` does not return
the open range's value 3 — it falls through to `keyNotFound`, because the
open-range test is the raw comparison `key >= start`. -/
theorem C1_counterexample :
    c1_state.ranges.getLastD ⟨0, 0, 0⟩ = ⟨2 ^ 32 - 2, 0, 3⟩ ∧
    submod 32 1 (2 ^ 32 - 2) < c1_state.halfRange ∧
    GetValue c1_state 1 = .error .keyNotFound := by
  refine ⟨rfl, by decide, rfl⟩

/-- C1 amended: `GetValue` takes the open-range branch exactly for keys that
are `>=` the open range's start in raw integer order; in the wraparound
scenario the key just below the wrap point gets the open range's value while
the keys just above it (0 and 1) fall through to `keyNotFound` — raw integer
ordering, not circular ordering. -/
theorem C1_open_range_raw_order :
    (∀ (r : RangeMap) (key : Nat), r.ranges ≠ [] →
        (r.ranges.getD (r.ranges.length - 1) ⟨0, 0, 0⟩).start ≤ key % 2 ^ r.w →
        GetValue r key
          = .ok (r.ranges.getD (r.ranges.length - 1) ⟨0, 0, 0⟩).value) ∧
    GetValue c1_state (2 ^ 32 - 1) = .ok 3 ∧
    GetValue c1_state 0 = .error .keyNotFound ∧
    GetValue c1_state 1 = .error .keyNotFound := by
  refine ⟨?_, rfl, rfl, rfl⟩
  intro r key hne hge
  have hn : r.ranges.length ≠ 0 := by
    simpa using fun hnil => hne (List.length_eq_zero.mp hnil)
  simp only [GetValue, ge_iff_le]
  rw [if_pos hn, if_pos hge]

theorem C1_witness :
    (c1_state.ranges ≠ [] ∧
      (c1_state.ranges.getD (c1_state.ranges.length - 1) ⟨0, 0, 0⟩).start
        ≤ (2 ^ 32 - 1) % 2 ^ c1_state.w) ∧
    GetValue c1_state (2 ^ 32 - 1)
      = .ok (c1_state.ranges.getD (c1_state.ranges.length - 1) ⟨0, 0, 0⟩).value :=
  ⟨⟨by decide, by decide⟩,
    C1_open_range_raw_order.1 c1_state (2 ^ 32 - 1) (by decide) (by decide)⟩

/-- C2: on a fresh map with capacity at least 2, `ExcludeRange(0, 10)` takes
the merge case (single open range `{start 10, value 10}`, no new record);
`ExcludeRange(20, 25)` then takes the split case, closing `[10, 19]` with
value 10 and opening `{start 25, value 15}`; afterwards `GetValue 22` fails
with `keyExcluded`, `GetValue 19` returns 10 and `GetValue 25` returns 15. -/
theorem C2_merge_split_scenario (size : Int) (hsize : 2 ≤ size) :
    (runOps (NewRangeMap 32 32 size) [.exclude 0 10]).ranges
      = [⟨10, 0, 10⟩] ∧
    (runOps (NewRangeMap 32 32 size) [.exclude 0 10, .exclude 20 25]).ranges
      = [⟨10, 19, 10⟩, ⟨25, 0, 15⟩] ∧
    GetValue (runOps (NewRangeMap 32 32 size) [.exclude 0 10, .exclude 20 25])
      22 = .error .keyExcluded ∧
    GetValue (runOps (NewRangeMap 32 32 size) [.exclude 0 10, .exclude 20 25])
      19 = .ok 10 ∧
    GetValue (runOps (NewRangeMap 32 32 size) [.exclude 0 10, .exclude 20 25])
      25 = .ok 15 := by
  have hmax : max size 1 = size := max_eq_left (by omega)
  have hnew : NewRangeMap 32 32 size
      = { w := 32, wv := 32, size := size.toNat, ranges := [⟨0, 0, 0⟩] } := by
    unfold NewRangeMap initRanges
    rw [hmax]
    rfl
  have hex1 : ExcludeRange
      { w := 32, wv := 32, size := size.toNat, ranges := [⟨0, 0, 0⟩] } 0 10
      = .ok { w := 32, wv := 32, size := size.toNat, ranges := [⟨10, 0, 10⟩] } := by
    simp only [ExcludeRange, RangeMap.halfRange, submod]
    norm_num
  have hex2 : ExcludeRange
      { w := 32, wv := 32, size := size.toNat, ranges := [⟨10, 0, 10⟩] } 20 25
      = .ok (prune { w := 32, wv := 32, size := size.toNat,
                     ranges := [⟨10, 19, 10⟩, ⟨25, 0, 15⟩] }) := by
    simp only [ExcludeRange, RangeMap.halfRange, submod]
    norm_num
  have hp : prune ({ w := 32, wv := 32, size := size.toNat,
                     ranges := [⟨10, 19, 10⟩, ⟨25, 0, 15⟩] } : RangeMap)
      = { w := 32, wv := 32, size := size.toNat,
          ranges := [⟨10, 19, 10⟩, ⟨25, 0, 15⟩] } := by
    refine prune_eq_self _ ?_
    simp only [List.length_cons, List.length_nil]
    omega
  have hstep1 : applyOp (NewRangeMap 32 32 size) (.exclude 0 10)
      = { w := 32, wv := 32, size := size.toNat, ranges := [⟨10, 0, 10⟩] } := by
    rw [hnew]
    exact applyOp_exclude_ok hex1
  have hstep2 : applyOp
      ({ w := 32, wv := 32, size := size.toNat,
         ranges := [⟨10, 0, 10⟩] } : RangeMap) (.exclude 20 25)
      = { w := 32, wv := 32, size := size.toNat,
          ranges := [⟨10, 19, 10⟩, ⟨25, 0, 15⟩] } :=
    (applyOp_exclude_ok hex2).trans hp
  have hrun1 : runOps (NewRangeMap 32 32 size) [.exclude 0 10]
      = { w := 32, wv := 32, size := size.toNat, ranges := [⟨10, 0, 10⟩] } := by
    rw [runOps_cons, hstep1, runOps_nil]
  have hrun2 : runOps (NewRangeMap 32 32 size) [.exclude 0 10, .exclude 20 25]
      = { w := 32, wv := 32, size := size.toNat,
          ranges := [⟨10, 19, 10⟩, ⟨25, 0, 15⟩] } := by
    rw [runOps_cons, hstep1, runOps_cons, hstep2, runOps_nil]
  have hs22 : gvStep ({ w := 32, wv := 32, size := size.toNat,
                        ranges := [⟨10, 19, 10⟩, ⟨25, 0, 15⟩] } : RangeMap) 22 1
      = some (.error .keyExcluded) := by
    simp only [gvStep]
    simp only [RangeMap.halfRange]
    simp only [submod]
    simp only [List.length_cons, List.length_nil, List.getD_cons_zero,
      List.getD_cons_succ, Nat.reduceAdd, Nat.reduceSub]
    norm_num
  have hs19a : gvStep ({ w := 32, wv := 32, size := size.toNat,
                         ranges := [⟨10, 19, 10⟩, ⟨25, 0, 15⟩] } : RangeMap) 19 1
      = none := by
    simp only [gvStep]
    simp only [RangeMap.halfRange]
    simp only [submod]
    simp only [List.length_cons, List.length_nil, List.getD_cons_zero,
      List.getD_cons_succ, Nat.reduceAdd, Nat.reduceSub]
    norm_num
  have hs19b : gvStep ({ w := 32, wv := 32, size := size.toNat,
                         ranges := [⟨10, 19, 10⟩, ⟨25, 0, 15⟩] } : RangeMap) 19 0
      = some (.ok 10) := by
    simp only [gvStep]
    simp only [RangeMap.halfRange]
    simp only [submod]
    simp only [List.length_cons, List.length_nil, List.getD_cons_zero,
      List.getD_cons_succ, Nat.reduceAdd, Nat.reduceSub]
    norm_num
  refine ⟨by rw [hrun1], by rw [hrun2], ?_, ?_, ?_⟩
  · rw [hrun2]
    simp only [GetValue, List.length_cons, List.length_nil, Nat.reduceAdd,
      Nat.reduceSub, Nat.reducePow, Nat.reduceMod, List.getD_cons_zero,
      List.getD_cons_succ, ge_iff_le, Nat.reduceLeDiff, Nat.reduceLT,
      reduceIte, ne_eq, OfNat.ofNat_ne_zero, not_false_eq_true]
    exact gvLoop_some hs22
  · rw [hrun2]
    simp only [GetValue, List.length_cons, List.length_nil, Nat.reduceAdd,
      Nat.reduceSub, Nat.reducePow, Nat.reduceMod, List.getD_cons_zero,
      List.getD_cons_succ, ge_iff_le, Nat.reduceLeDiff, Nat.reduceLT,
      reduceIte, ne_eq, OfNat.ofNat_ne_zero, not_false_eq_true]
    rw [gvLoop_none hs19a (by norm_num)]
    simp only [Nat.reduceSub]
    exact gvLoop_some hs19b
  · rw [hrun2]
    simp only [GetValue, List.length_cons, List.length_nil, Nat.reduceAdd,
      Nat.reduceSub, Nat.reducePow, Nat.reduceMod, List.getD_cons_zero,
      List.getD_cons_succ, ge_iff_le, Nat.reduceLeDiff, Nat.reduceLT,
      reduceIte, ne_eq, OfNat.ofNat_ne_zero, not_false_eq_true]

theorem C2_witness :
    (2 : Int) ≤ 2 ∧
      GetValue (runOps (NewRangeMap 32 32 2) [.exclude 0 10, .exclude 20 25])
        22 = .error .keyExcluded :=
  ⟨by decide, (C2_merge_split_scenario 2 (by decide)).2.2.1⟩

/-- C3 counterexample: an exclusion of width exactly `halfRange` is accepted
by `ExcludeRange` (the source rejects only widths strictly greater than
`halfRange`), contradicting the claim that width `≥ halfRange` fails. -/
theorem C3_counterexample :
    submod 32 (2 ^ 31) 0 = (NewRangeMap 32 32 4).halfRange ∧
    ExcludeRange (NewRangeMap 32 32 4) 0 (2 ^ 31)
      = .ok { w := 32, wv := 32, size := 4, ranges := [⟨2 ^ 31, 0, 2 ^ 31⟩] } :=
  ⟨by decide, rfl⟩

/-- C3 amended: `ExcludeRange` fails with `reversedOrder` exactly when the
width is zero, the width is strictly greater than `halfRange`, or the start
precedes the open range's start; on failure the map is left unchanged. -/
theorem C3_rejection_conditions (r : RangeMap) (s e : Nat)
    (hne : r.ranges ≠ []) :
    (ExcludeRange r s e = .error .reversedOrder ↔
      (e % 2 ^ r.w = s % 2 ^ r.w ∨ r.halfRange < submod r.w e s ∨
        s % 2 ^ r.w < (r.ranges.getLastD ⟨0, 0, 0⟩).start)) ∧
    ((∃ err, ExcludeRange r s e = .error err) →
      applyOp r (.exclude s e) = r) := by
  constructor
  · constructor
    · intro herr
      rcases ExcludeRange_cases r s e hne with h | h | h
      · exact h.2
      · rw [h.2.2.2] at herr
        exact absurd herr (by simp)
      · rw [h.2.2.2] at herr
        exact absurd herr (by simp)
    · intro hcond
      rcases ExcludeRange_cases r s e hne with h | h | h
      · exact h.1
      · exfalso
        rcases hcond with h1 | h1 | h1
        · exact h.1 h1
        · exact absurd h.2.1 (not_le.mpr h1)
        · rw [h.2.2.1] at h1
          exact lt_irrefl _ h1
      · exfalso
        rcases hcond with h1 | h1 | h1
        · exact h.1 h1
        · exact absurd h.2.1 (not_le.mpr h1)
        · exact lt_asymm h1 h.2.2.1
  · rintro ⟨err, herr⟩
    simp [applyOp, herr]

theorem C3_witness :
    c3_state.ranges ≠ [] ∧ ExcludeRange c3_state 5 8 = .error .reversedOrder :=
  ⟨by decide,
    ((C3_rejection_conditions c3_state 5 8 (by decide)).1).mpr (by decide)⟩

/-- C6: with capacity 1, after three split-causing exclusions the oldest
closed range `[0, 9]` has been evicted and all its keys fail with
`keyTooOld`, while the retained closed range `[40, 49]` and the open range
still return their values. -/
theorem C6_eviction_scenario :
    c6_state.ranges = [⟨40, 49, 20⟩, ⟨60, 0, 30⟩] ∧
    (∀ k : Nat, k ≤ 9 → GetValue c6_state k = .error .keyTooOld) ∧
    (∀ k : Nat, 40 ≤ k → k ≤ 49 → GetValue c6_state k = .ok 20) ∧
    GetValue c6_state 60 = .ok 30 := by
  refine ⟨rfl, ?_, ?_, rfl⟩
  · intro k hk
    interval_cases k <;> rfl
  · intro k h1 h2
    interval_cases k <;> rfl

theorem C6_witness :
    (5 : Nat) ≤ 9 ∧ GetValue c6_state 5 = .error .keyTooOld :=
  ⟨by decide, C6_eviction_scenario.2.1 5 (by decide)⟩

lemma strongInv_single (r : RangeMap) (v : Nat) : StrongInv (initRanges r v) := by
  refine ⟨by simp [initRanges], ?_, ?_, ?_⟩
  · intro rv hrv
    simp only [initRanges, List.mem_singleton] at hrv
    subst hrv
    exact Nat.two_pow_pos _
  · intro rv hrv
    simp [initRanges] at hrv
  · simp [initRanges]

lemma strongInv_prune {r : RangeMap} (hr : StrongInv r) : StrongInv (prune r) := by
  obtain ⟨hne, hstarts, hclosed, hchain⟩ := hr
  unfold prune
  split
  next hlen =>
    have hk : r.ranges.length - r.size - 1 < r.ranges.length := by omega
    refine ⟨drop_ne_nil _ _ hk, ?_, ?_, chain'_drop _ hchain⟩
    · intro rv hrv
      exact hstarts rv (List.drop_subset _ _ hrv)
    · intro rv hrv
      exact hclosed rv (mem_dropLast_drop hrv)
  next => exact ⟨hne, hstarts, hclosed, hchain⟩

lemma strongInv_applyOp {r : RangeMap} (op : Op) (hr : StrongInv r)
    (hop : disciplined r op) : StrongInv (applyOp r op) := by
  obtain ⟨hne, hstarts, hclosed, hchain⟩ := hr
  cases op with
  | reset v => exact strongInv_single r v
  | dec d => exact hop.elim
  | exclude s e =>
    have hop' : s % 2 ^ r.w < e % 2 ^ r.w ∧ e % 2 ^ r.w < r.halfRange ∧
        (r.ranges.getLastD ⟨0, 0, 0⟩).value +
          (e % 2 ^ r.w - s % 2 ^ r.w) < 2 ^ r.wv := hop
    obtain ⟨hs, he, hov⟩ := hop'
    have hemod : e % 2 ^ r.w < 2 ^ r.w := Nat.mod_lt _ (Nat.two_pow_pos _)
    have hsmod : s % 2 ^ r.w < 2 ^ r.w := Nat.mod_lt _ (Nat.two_pow_pos _)
    have hwidth : submod r.w e s = e % 2 ^ r.w - s % 2 ^ r.w := by
      rw [← submod_mod]
      exact submod_eq_sub (le_of_lt hs) hemod
    have hLlr : r.ranges.dropLast ++ [r.ranges.getLastD ⟨0, 0, 0⟩]
        = r.ranges := by
      rw [List.getLastD_eq_getLast?, List.getLast?_eq_getLast _ hne]
      exact List.dropLast_append_getLast hne
    set lr := r.ranges.getLastD ⟨0, 0, 0⟩ with hlr
    have hlrmem : lr ∈ r.ranges := by
      rw [← hLlr]
      exact List.mem_append_right _ (by simp)
    have hlrstart : lr.start < r.halfRange := hstarts lr hlrmem
    have hnv : (lr.value + submod r.w e s) % 2 ^ r.wv
        = lr.value + (e % 2 ^ r.w - s % 2 ^ r.w) := by
      rw [hwidth]
      exact Nat.mod_eq_of_lt hov
    rcases ExcludeRange_cases r s e hne with herr | hmerge | hsplit
    · rw [applyOp_exclude_error herr.1]
      exact ⟨hne, hstarts, hclosed, hchain⟩
    · rw [applyOp_exclude_ok hmerge.2.2.2]
      refine ⟨by simp, ?_, ?_, ?_⟩
      · intro rv hrv
        rcases List.mem_append.mp hrv with h1 | h1
        · exact hstarts rv ((List.dropLast_sublist _).subset h1)
        · rw [List.mem_singleton] at h1
          subst h1
          exact he
      · intro rv hrv
        rw [List.dropLast_concat] at hrv
        exact hclosed rv hrv
      · rw [← hLlr] at hchain
        rw [List.chain'_append] at hchain ⊢
        obtain ⟨hcL, _, hlink⟩ := hchain
        refine ⟨hcL, List.chain'_singleton _, ?_⟩
        intro x hx y hy
        simp only [List.head?_cons, Option.mem_def, Option.some.injEq] at hy
        subst hy
        have hgp := hlink x hx lr (by simp)
        constructor
        · show x.start < e % 2 ^ r.w
          have h1 : lr.start = s % 2 ^ r.w := hmerge.2.2.1
          have h2 : x.start < lr.start := hgp.1
          omega
        · show x.value ≤ (lr.value + submod r.w e s) % 2 ^ r.wv
          rw [hnv]
          exact le_trans hgp.2 (Nat.le_add_right _ _)
    · rw [applyOp_exclude_ok hsplit.2.2.2]
      apply strongInv_prune
      have hlrs : lr.start < s % 2 ^ r.w := hsplit.2.2.1
      have hend : submod r.w (s % 2 ^ r.w) 1 = s % 2 ^ r.w - 1 :=
        submod_eq_sub (by omega) hsmod
      refine ⟨by simp, ?_, ?_, ?_⟩
      · intro rv hrv
        rcases List.mem_append.mp hrv with h1 | h1
        · exact hstarts rv ((List.dropLast_sublist _).subset h1)
        · rw [List.mem_cons, List.mem_singleton] at h1
          rcases h1 with h1 | h1 <;> subst h1
          · exact hlrstart
          · exact he
      · intro rv hrv
        have hdl : (r.ranges.dropLast ++
            [{ lr with end_ := submod r.w (s % 2 ^ r.w) 1 },
             (⟨e % 2 ^ r.w, 0, (lr.value + submod r.w e s) % 2 ^ r.wv⟩ :
               RangeVal)]).dropLast
            = r.ranges.dropLast ++ [{ lr with end_ := submod r.w (s % 2 ^ r.w) 1 }] := by
          rw [show r.ranges.dropLast ++
              [{ lr with end_ := submod r.w (s % 2 ^ r.w) 1 },
               (⟨e % 2 ^ r.w, 0, (lr.value + submod r.w e s) % 2 ^ r.wv⟩ :
                 RangeVal)]
              = (r.ranges.dropLast ++
                  [{ lr with end_ := submod r.w (s % 2 ^ r.w) 1 }]) ++
                [(⟨e % 2 ^ r.w, 0, (lr.value + submod r.w e s) % 2 ^ r.wv⟩ :
                  RangeVal)] by simp]
          exact List.dropLast_concat
        rw [hdl] at hrv
        rcases List.mem_append.mp hrv with h1 | h1
        · exact hclosed rv h1
        · rw [List.mem_singleton] at h1
          subst h1
          constructor
          · show lr.start ≤ submod r.w (s % 2 ^ r.w) 1
            rw [hend]
            omega
          · show submod r.w (s % 2 ^ r.w) 1 < r.halfRange
            rw [hend]
            omega
      · rw [← hLlr] at hchain
        rw [List.chain'_append] at hchain ⊢
        obtain ⟨hcL, _, hlink⟩ := hchain
        refine ⟨hcL, ?_, ?_⟩
        · refine List.chain'_pair.mpr ?_
          constructor
          · show lr.start < e % 2 ^ r.w
            omega
          · show lr.value ≤ (lr.value + submod r.w e s) % 2 ^ r.wv
            rw [hnv]
            exact Nat.le_add_right _ _
        · intro x hx y hy
          simp only [List.head?_cons, Option.mem_def, Option.some.injEq] at hy
          subst hy
          have hgp := hlink x hx lr (by simp)
          exact ⟨hgp.1, hgp.2⟩

lemma strongInv_run (ops : List Op) :
    ∀ r : RangeMap, StrongInv r → DisciplinedRun r ops →
      StrongInv (runOps r ops) := by
  induction ops with
  | nil => exact fun r h _ => h
  | cons op rest ih =>
    intro r h hd
    have hd' : disciplined r op ∧ DisciplinedRun (applyOp r op) rest := hd
    rw [runOps_cons]
    exact ih _ (strongInv_applyOp op h hd'.1) hd'.2

lemma strongInv_sortedInv {r : RangeMap} (hr : StrongInv r) : SortedInv r := by
  obtain ⟨hne, hstarts, hclosed, hchain⟩ := hr
  have hw2 : r.halfRange ≤ 2 ^ r.w :=
    Nat.pow_le_pow_right (by norm_num) (Nat.sub_le _ _)
  constructor
  · refine chain'_imp_mem hchain ?_
    intro a b ha hb hab
    have hb' : b.start < 2 ^ r.w := lt_of_lt_of_le (hstarts b hb) hw2
    have hsub : submod r.w b.start a.start = b.start - a.start :=
      submod_eq_sub (le_of_lt hab.1) hb'
    have hbh := hstarts b hb
    have h1 := hab.1
    exact ⟨by omega, by omega, hab.2⟩
  · intro rv hrv
    obtain ⟨h1, h2⟩ := hclosed rv hrv
    have hrv2 : rv.end_ < 2 ^ r.w := lt_of_lt_of_le h2 hw2
    rw [submod_eq_sub h1 hrv2]
    omega

/-- C4 counterexample: two sequences of valid operations violate the claimed
invariant.  A valid `DecValue` makes the open range's value drop below the
last closed range's value, and a single wrap-crossing exclusion produces a
closed range wider than `halfRange - 1` with starts out of circular order. -/
theorem C4_counterexample :
    ¬ SortedInv (runOps (NewRangeMap 32 32 4)
        [.exclude 0 10, .exclude 20 25, .dec 10]) ∧
    ¬ SortedInv (runOps (NewRangeMap 32 32 4)
        [.exclude (2 ^ 32 - 5) (2 ^ 32 - 2)]) := by
  constructor
  · intro h
    have h1 : List.Chain'
        (circPair (runOps (NewRangeMap 32 32 4)
          [.exclude 0 10, .exclude 20 25, .dec 10]))
        [⟨10, 19, 10⟩, ⟨25, 0, 5⟩] := h.1
    have h2 := (List.chain'_pair.mp h1).2.2
    exact absurd h2 (by decide)
  · intro h
    have h4 := h.2 ⟨0, 2 ^ 32 - 6, 0⟩ (by decide)
    exact absurd h4 (by decide)

/-- C4 amended: for disciplined operation sequences — no `DecValue`, and
every exclusion wrap-free (`s mod 2^w < e mod 2^w < halfRange`) with no
value-type overflow — the ranges list is sorted by circular start order with
non-decreasing values, and every closed range circularly satisfies
`start ≤ end` with width at most `halfRange - 1`. -/
theorem C4_invariants_disciplined (w wv : Nat) (size : Int) (ops : List Op)
    (h : DisciplinedRun (NewRangeMap w wv size) ops) :
    SortedInv (runOps (NewRangeMap w wv size) ops) :=
  strongInv_sortedInv (strongInv_run ops _ (strongInv_single _ 0) h)

theorem C4_witness :
    DisciplinedRun (NewRangeMap 32 32 2) [.exclude 0 10, .exclude 20 25] ∧
    SortedInv (runOps (NewRangeMap 32 32 2) [.exclude 0 10, .exclude 20 25]) :=
  ⟨by decide, C4_invariants_disciplined 32 32 2 _ (by decide)⟩
